import Mathlib

/-!
# Verification of the DERopt data-loading pipeline

Shallow embedding of the ingestion-and-conditioning pipeline implemented in
`src/data_loading/loaders/energy_load.py` and
`src/data_loading/loaders/resource_profiles.py`.

Modelling conventions:
* An instant (`datetime.datetime`) is a rational number of seconds counted from
  midnight of proleptic-Gregorian ordinal day 0, so midnight of ordinal day `n`
  is `86400 * n`.  `datetime.fromordinal(n)` is `86400 * n`;
  `dt.toordinal()` is `⌊dt / 86400⌋`.
* Python floats are embedded as `ℚ` with exact arithmetic.
* A missing value (`NaN`) is `Option.none`; present values are `Option.some`.
* Strings are Lean `String`s; the Python code only ever feeds them ASCII header
  text, so `Char.toLower` agrees with `str.lower` on the inputs in scope.
-/

namespace DEROpt

/-- Python `int()` applied to a float: truncation toward zero. -/
def pyInt (q : ℚ) : ℤ := if 0 ≤ q then ⌊q⌋ else ⌈q⌉

/-- Python `round()` to the nearest integer, ties to even (banker's rounding). -/
def pyRound (q : ℚ) : ℤ :=
  if q - ⌊q⌋ < 1/2 then ⌊q⌋
  else if 1/2 < q - ⌊q⌋ then ⌊q⌋ + 1
  else if ⌊q⌋ % 2 = 0 then ⌊q⌋ else ⌊q⌋ + 1

/-! ## Calendar arithmetic (CPython `datetime`, proleptic Gregorian) -/

/-- Gregorian leap-year rule, as in CPython `datetime._is_leap`. -/
def isLeapYear (y : ℕ) : Bool := (y % 4 == 0 && y % 100 != 0) || y % 400 == 0

/-- Days in month `m` of year `y` (CPython `datetime._days_in_month`). -/
def daysInMonth (y m : ℕ) : ℕ :=
  if m = 2 then (if isLeapYear y then 29 else 28)
  else if m = 4 ∨ m = 6 ∨ m = 9 ∨ m = 11 then 30
  else 31

/-- Days before January 1 of year `y` (CPython `datetime._days_before_year`). -/
def daysBeforeYear (y : ℕ) : ℕ :=
  365 * (y - 1) + (y - 1) / 4 - (y - 1) / 100 + (y - 1) / 400

/-- Days in year `y` before the first of month `m`. -/
def daysBeforeMonth (y m : ℕ) : ℕ :=
  ((List.range (m - 1)).map (fun i => daysInMonth y (i + 1))).sum

/-- CPython `datetime.date(y, m, d).toordinal()`. -/
def toordinal (y m d : ℕ) : ℕ := daysBeforeYear y + daysBeforeMonth y m + d

/-- Midnight of calendar date `y-m-d` as an instant (seconds model). -/
def midnightOf (y m d : ℕ) : ℚ := (toordinal y m d : ℚ) * 86400

/-! ## Serial-date codecs (`energy_load.py` lines 24–52) -/

/-- `_datetime_to_matlab_serial`: `float(dt.toordinal() + 366) + seconds/86400`
where `seconds` is the time elapsed since the instant's own midnight. -/
def datetime_to_matlab_serial (dt : ℚ) : ℚ :=
  ((⌊dt / 86400⌋ : ℤ) : ℚ) + 366 + (dt - 86400 * (⌊dt / 86400⌋ : ℤ)) / 86400

/-- `_matlab_serial_to_datetime`: `day = int(serial)`, `frac = serial - day`,
`base = fromordinal(max(day - 366, 1))`, result `base + round(frac * 86400)` seconds. -/
def matlab_serial_to_datetime (serial : ℚ) : ℚ :=
  86400 * ((max (pyInt serial - 366) 1 : ℤ) : ℚ) + (pyRound ((serial - (pyInt serial : ℚ)) * 86400) : ℚ)

/-- `_excel_serial_to_datetime`: epoch Dec 31 1899; serials `>= 61` are decremented
by one day (Excel 1900 leap-year defect) before `epoch + timedelta(days=serial)`. -/
def excel_serial_to_datetime (serial : ℚ) : ℚ :=
  midnightOf 1899 12 31 + (if 61 ≤ serial then serial - 1 else serial) * 86400

/-- Numeric-cell branch of `_parse_datetime_cell` under `fmt = "auto"`
(`energy_load.py` lines 89–95): magnitude disambiguation against the constant
`_SERIAL_MATLAB_MIN = _SERIAL_EXCEL_MAX = 100_000`. -/
def parse_auto_numeric_cell (serial : ℚ) : ℚ :=
  if 100000 ≤ serial then matlab_serial_to_datetime serial
  else if serial ≤ 100000 then excel_serial_to_datetime serial
  else excel_serial_to_datetime serial

/-! ## Row-count interval inference (`resource_profiles.py` lines 14–48) -/

/-- `_ROW_COUNT_TO_INTERVAL_MINUTES`. -/
def ROW_COUNT_TO_INTERVAL_MINUTES : List (ℕ × ℕ) :=
  [(8760, 60), (17520, 30), (35040, 15), (105120, 5)]

/-- `_infer_interval_minutes_from_row_count`: table hit first; then reject
`n <= 0 or n > 525600`; otherwise `int(round(60 * 8760 / n))` clamped below at 1.
(`n : ℕ`, so the Python guard `n <= 0` is `n = 0`.) -/
def infer_interval_minutes_from_row_count (n : ℕ) : Except String ℕ :=
  match ROW_COUNT_TO_INTERVAL_MINUTES.lookup n with
  | some v => .ok v
  | none =>
    if n = 0 ∨ 525600 < n then
      .error "Cannot infer time step from row count"
    else
      .ok (Int.toNat (max (pyRound ((60 * 8760 : ℚ) / n)) 1))

/-! ## Time conditioning (`energy_load.py` lines 202–264)

Timestamps are instants (rational seconds); a value cell is `Option ℚ` with
`none` for `NaN`.  A frame is the list of timestamps plus one value column per
series, all of the same length.  The configured interpolation method is the
default `"linear"` (positional linear interpolation, `limit_direction="both"`).
-/

/-- The conditioning-relevant fields of `EnergyLoadFileConfig`. -/
structure CondCfg where
  treat_negative_as_missing : Bool
  target_interval_minutes : Option ℕ
  resample_only_if_irregular : Bool
  resample_tolerance_seconds : ℚ

/-- `df.where(df >= 0)` on one cell: `NaN >= 0` is false, so `NaN` stays
missing and negative values become missing. -/
def maskNegative (o : Option ℚ) : Option ℚ :=
  o.bind (fun v => if 0 ≤ v then some v else none)

/-- Helper: positions (from `i`) paired with present values. -/
def validPairsAux : ℕ → List (Option ℚ) → List (ℕ × ℚ)
  | _, [] => []
  | i, none :: rest => validPairsAux (i + 1) rest
  | i, some v :: rest => (i, v) :: validPairsAux (i + 1) rest

/-- Positions of a column paired with its present (non-`NaN`) values. -/
def validPairs (xs : List (Option ℚ)) : List (ℕ × ℚ) := validPairsAux 0 xs

/-- Nearest valid entry strictly before position `i`. -/
def lastValidBefore (xs : List (Option ℚ)) (i : ℕ) : Option (ℕ × ℚ) :=
  ((validPairs xs).filter (fun p => p.1 < i)).getLast?

/-- Nearest valid entry strictly after position `i`. -/
def firstValidAfter (xs : List (Option ℚ)) (i : ℕ) : Option (ℕ × ℚ) :=
  ((validPairs xs).filter (fun p => i < p.1)).head?

/-- One output cell of `Series.interpolate(method="linear",
limit_direction="both")`: present cells are unchanged; a missing cell strictly
between two valid cells gets the positional linear interpolation; a missing
cell with valid cells on one side only is clamped to the nearest valid value;
a column with no valid cell stays missing. -/
def interpAt (xs : List (Option ℚ)) (i : ℕ) : Option ℚ :=
  match xs.getD i none with
  | some v => some v
  | none =>
    match lastValidBefore xs i, firstValidAfter xs i with
    | some jv, some kv =>
        some (jv.2 + (kv.2 - jv.2) * (((i : ℚ) - (jv.1 : ℚ)) / ((kv.1 : ℚ) - (jv.1 : ℚ))))
    | some jv, none => some jv.2
    | none, some kv => some kv.2
    | none, none => none

/-- `Series.interpolate(method="linear", limit_direction="both")`. -/
def interpolate_linear_both (xs : List (Option ℚ)) : List (Option ℚ) :=
  (List.range xs.length).map (interpAt xs)

/-- `deltas_sec % interval_sec` (numpy remainder, positive divisor). -/
def gridRemainder (T delta : ℚ) : ℚ := delta - T * ⌊delta / T⌋

/-- `np.minimum(remainders, interval_sec - remainders)` for one element. -/
def gridDistance (T delta : ℚ) : ℚ :=
  min (gridRemainder T delta) (T - gridRemainder T delta)

/-- `_timestamps_are_regular_enough`: at most one timestamp is always regular;
otherwise the maximum distance of any timestamp-offset (relative to the first
timestamp) to the nearer grid line must be within the tolerance.  (`np.max` of
the nonempty deviations list is its fold by `max` from 0: deviations are
nonnegative for a positive interval.) -/
def timestamps_are_regular_enough (dts : List ℚ) (interval_minutes : ℕ) (tol : ℚ) : Bool :=
  if dts.length ≤ 1 then true
  else
    decide (((dts.map (fun t =>
      gridDistance ((interval_minutes : ℚ) * 60) (t - dts.headD 0))).foldr max 0) ≤ tol)

/-- Bin width in seconds of the pandas frequency string built at lines 242–244:
`"{m}min"` when `m < 60`, else `"1h"` (so targets above 60 minutes resample to
hourly buckets). -/
def resample_bin_seconds (interval_min : ℕ) : ℚ :=
  if interval_min < 60 then (interval_min : ℚ) * 60 else 3600

/-- `origin="start_day"` (the pandas default): midnight of the first
timestamp's day. -/
def resampleOrigin (d0 : ℚ) : ℚ := 86400 * (⌊d0 / 86400⌋ : ℤ)

/-- Index of the left-closed bin `[origin + k·T, origin + (k+1)·T)` holding `t`. -/
def binIdx (T origin t : ℚ) : ℤ := ⌊(t - origin) / T⌋

/-- Mean of a bucket: `NaN` for an empty bucket, else the skip-NaN mean. -/
def meanOfList (l : List ℚ) : Option ℚ :=
  if l.isEmpty then none else some (l.sum / (l.length : ℚ))

/-- The bin indices produced by `df.resample(freq)` on a chronologically sorted
index: every bin from the one holding the first timestamp through the one
holding the last. -/
def resampleBins (dts : List ℚ) (T : ℚ) : List ℤ :=
  if dts.isEmpty then []
  else
    (List.range (binIdx T (resampleOrigin (dts.headD 0)) (dts.getLastD 0)
        - binIdx T (resampleOrigin (dts.headD 0)) (dts.headD 0) + 1).toNat).map
      (fun (j : ℕ) => binIdx T (resampleOrigin (dts.headD 0)) (dts.headD 0) + (j : ℤ))

/-- The resampled timestamp index (left bin edges). -/
def resample_index (dts : List ℚ) (T : ℚ) : List ℚ :=
  (resampleBins dts T).map (fun k => resampleOrigin (dts.headD 0) + T * (k : ℚ))

/-- One column of `df.resample(freq).mean()`: per bin, the skip-NaN mean of the
column's values whose timestamps fall in that bin (`NaN` when none do). -/
def resample_mean_column (dts : List ℚ) (col : List (Option ℚ)) (T : ℚ) : List (Option ℚ) :=
  (resampleBins dts T).map (fun k =>
    meanOfList ((((dts.zip col).filterMap
        (fun p => p.2.map (fun v => (p.1, v)))).filter
      (fun p => binIdx T (resampleOrigin (dts.headD 0)) p.1 == k)).map Prod.snd))

/-- `_condition_time_series` on a frame of sorted timestamps and value columns:
empty input is returned as is; otherwise negatives are masked to missing when
configured, the frame is resampled to the target grid unless no target is set
or the timestamps are already regular enough (with `resample_only_if_irregular`),
and finally every column is gap-filled by interpolation. -/
def condition_time_series (cfg : CondCfg) (dts : List ℚ)
    (series : List (List (Option ℚ))) : List ℚ × List (List (Option ℚ)) :=
  if dts.isEmpty then (dts, series)
  else
    match cfg.target_interval_minutes with
    | none =>
        (dts,
         ((if cfg.treat_negative_as_missing then
            series.map (fun col => col.map maskNegative) else series).map
          interpolate_linear_both))
    | some m =>
        if cfg.resample_only_if_irregular &&
           timestamps_are_regular_enough dts m cfg.resample_tolerance_seconds then
          (dts,
           ((if cfg.treat_negative_as_missing then
              series.map (fun col => col.map maskNegative) else series).map
            interpolate_linear_both))
        else
          (resample_index dts (resample_bin_seconds m),
           ((if cfg.treat_negative_as_missing then
              series.map (fun col => col.map maskNegative) else series).map
            (fun col =>
              interpolate_linear_both
                (resample_mean_column dts col (resample_bin_seconds m)))))

/-! ## Interval-in-hours metadata (`load_energy_load`, lines 360–364) -/

/-- The `dt_hours` computation of `load_energy_load`: `None` unless at least two
timestamps exist, else the spacing of the *first two* timestamps in hours. -/
def first_step_hours (dts : List ℚ) : Option ℚ :=
  match dts with
  | t0 :: t1 :: _ => some ((t1 - t0) / 3600)
  | _ => none

/-- The spec's notion of a regular time axis: one constant spacing throughout. -/
def axis_regular (dts : List ℚ) : Prop :=
  ∃ g, dts.Chain' (fun a b => b - a = g)

/-! ## Header pattern matching and column resolution (`energy_load.py` 149–190) -/

/-- Python regex word character (`\b` boundaries); header text is ASCII. -/
def isWordChar (c : Char) : Bool := c.isAlphanum || c == '_'

/-- There is a word boundary side at index `i`: out of range or a non-word char. -/
def boundaryAt (s : List Char) (i : ℕ) : Bool :=
  match s.get? i with
  | none => true
  | some c => !isWordChar c

/-- Position `p` of the lowered header starts a `\bkw(?:h)?\b` match: literal
`kw`, a word boundary on the left, and on the right either a boundary directly
after `kw` or an `h` followed by a boundary. -/
def kwWordAt (s : List Char) (p : ℕ) : Bool :=
  (s.get? p == some 'k') && (s.get? (p + 1) == some 'w') &&
  (decide (p = 0) || boundaryAt s (p - 1)) &&
  (boundaryAt s (p + 2) || ((s.get? (p + 2) == some 'h') && boundaryAt s (p + 3)))

/-- End index (exclusive) of the `kw(?:h)?` token starting at `p`. -/
def kwTokenEnd (s : List Char) (p : ℕ) : ℕ :=
  if s.get? (p + 2) == some 'h' then p + 3 else p + 2

/-- `_UNIT_IN_PARENTHESES_PATTERN.search(name) is not None` for the pattern
`\([^)]*\bkw(?:h)?\b[^)]*\)` with `re.IGNORECASE`: some whole-word `kw`/`kwh`
occurrence has an opening parenthesis before it with no closing parenthesis in
between, and some closing parenthesis at or after the end of the token. -/
def unit_in_parentheses (name : String) : Bool :=
  (List.range (name.data.map Char.toLower).length).any (fun p =>
    kwWordAt (name.data.map Char.toLower) p &&
    ((List.range p).any (fun i =>
      ((name.data.map Char.toLower).get? i == some '(') &&
      ((List.range (p - i - 1)).all (fun d =>
        !((name.data.map Char.toLower).get? (i + 1 + d) == some ')'))))) &&
    ((List.range (name.data.map Char.toLower).length).any (fun j =>
      (decide (kwTokenEnd (name.data.map Char.toLower) p ≤ j)) &&
      ((name.data.map Char.toLower).get? j == some ')'))))

/-- The diagnostic payload of the `ValueError` raised by `_resolve_load_columns`
(line 187): the missing configured column and every header found. -/
structure MissingColumn where
  configured : String
  found : List String
deriving DecidableEq

/-- `_resolve_load_columns`: explicit configured column first plus the other
unit-pattern headers, else all unit-pattern headers (Python list truthiness is
non-emptiness), else `MissingColumn`. -/
def resolve_load_columns (fieldnames : List String) (configured_column : String) :
    Except MissingColumn (List String) :=
  if configured_column ∈ fieldnames then
    .ok (configured_column ::
      (fieldnames.filter (fun name => unit_in_parentheses name)).filter
        (fun c => c != configured_column))
  else if fieldnames.filter (fun name => unit_in_parentheses name) ≠ [] then
    .ok (fieldnames.filter (fun name => unit_in_parentheses name))
  else
    .error ⟨configured_column, fieldnames⟩

/-! ## Series-key normalization (`energy_load.py` 152–158, 373–383) -/

/-- A character kept verbatim by the regex `[^a-z0-9]+` substitution
(the input is already lowercased). -/
def isLowerAlnumChar (c : Char) : Bool :=
  ('a' ≤ c && c ≤ 'z') || ('0' ≤ c && c ≤ '9')

/-- `re.sub(r"[^a-z0-9]+", "_", s)`: every maximal run of non-alphanumeric
characters becomes a single underscore.  The flag tracks whether the previous
character was part of such a run. -/
def collapseNonAlnum : Bool → List Char → List Char
  | _, [] => []
  | inRun, c :: rest =>
    if isLowerAlnumChar c then c :: collapseNonAlnum false rest
    else if inRun then collapseNonAlnum true rest
    else '_' :: collapseNonAlnum true rest

/-- Python `str.strip("_")`. -/
def stripUnderscores (l : List Char) : List Char :=
  ((l.dropWhile (fun c => c == '_')).reverse.dropWhile (fun c => c == '_')).reverse

/-- Python `str.replace("demand", "load")`: all non-overlapping occurrences,
left to right.  Fuel-structured recursion; fuel is the list length, and each
step consumes at least one character, so the fuel never runs out. -/
def replaceDemandLoad : ℕ → List Char → List Char
  | 0, l => l
  | _ + 1, [] => []
  | fuel + 1, c :: rest =>
    if (c :: rest).take 6 = ['d', 'e', 'm', 'a', 'n', 'd'] then
      ['l', 'o', 'a', 'd'] ++ replaceDemandLoad fuel ((c :: rest).drop 6)
    else
      c :: replaceDemandLoad fuel rest

/-- `_normalize_series_key`: lowercase, collapse non-alphanumeric runs to `_`,
strip leading/trailing `_`, then replace `demand` with `load`. -/
def normalize_series_key (header : String) : String :=
  String.mk (replaceDemandLoad
    (stripUnderscores (collapseNonAlnum false (header.data.map Char.toLower))).length
    (stripUnderscores (collapseNonAlnum false (header.data.map Char.toLower))))

/-- Storage key used by the Container Assembler (line 381). -/
def series_key (col : String) : String :=
  "electricity_load__" ++ normalize_series_key col

/-! ## Capacity-factor conversion (`resource_profiles.py`, lines 195–200) -/

/-- The conversion step of `load_solar_into_container`:
`dt_hours = data.static.get("time_step_hours")`, defaulted to `1.0` when the
container recorded no interval, then every cleaned aligned sample is multiplied
by it. -/
def convert_cf_to_energy (time_step_hours : Option ℚ) (aligned : List ℚ) : List ℚ :=
  aligned.map (fun v => v * time_step_hours.getD 1)

/-! ## Theorems: datetime decoding claims -/

/-- Basic bound for Python banker's rounding. -/
theorem pyRound_close (q : ℚ) : |(pyRound q : ℚ) - q| ≤ 1/2 := by
  have h0 : (⌊q⌋ : ℚ) ≤ q := Int.floor_le q
  have h1 : q < ⌊q⌋ + 1 := Int.lt_floor_add_one q
  unfold pyRound
  split_ifs with hr1 hr2 hpar <;>
    · rw [abs_le]; push_cast; constructor <;> linarith

/-- C2 counterexample: the `auto`-mode boundary serial 100000 is decoded as a
MATLAB serial (line 90 uses `>=`), and that result differs from the Excel
decoding of the same serial, so the claim "the boundary value 100,000 itself is
decoded as an Excel serial" is false. -/
theorem c2_counterexample :
    parse_auto_numeric_cell 100000 = matlab_serial_to_datetime 100000 ∧
    parse_auto_numeric_cell 100000 ≠ excel_serial_to_datetime 100000 := by
  have h1 : toordinal 1899 12 31 = 693595 := by decide
  constructor
  · unfold parse_auto_numeric_cell
    norm_num
  · unfold parse_auto_numeric_cell matlab_serial_to_datetime excel_serial_to_datetime
      midnightOf pyInt pyRound
    rw [h1]
    norm_num

/-- C2 (amended): in `auto` mode with a numeric cell, a serial strictly greater
than 100000 is decoded as a MATLAB serial, a serial strictly less than 100000 as
an Excel serial, and the boundary 100000 itself as a MATLAB serial. -/
theorem c2_auto_serial_magnitude (s : ℚ) :
    (100000 < s → parse_auto_numeric_cell s = matlab_serial_to_datetime s) ∧
    (s < 100000 → parse_auto_numeric_cell s = excel_serial_to_datetime s) ∧
    parse_auto_numeric_cell 100000 = matlab_serial_to_datetime 100000 := by
  refine ⟨fun h => ?_, fun h => ?_, ?_⟩
  · unfold parse_auto_numeric_cell; rw [if_pos (le_of_lt h)]
  · unfold parse_auto_numeric_cell; rw [if_neg (not_le.mpr h), if_pos (le_of_lt h)]
  · unfold parse_auto_numeric_cell; rw [if_pos le_rfl]

/-- C2 witness: both strict cases of `c2_auto_serial_magnitude` at concrete serials. -/
theorem c2_auto_serial_magnitude_witness :
    ((100000 : ℚ) < 738000 ∧
      parse_auto_numeric_cell 738000 = matlab_serial_to_datetime 738000) ∧
    ((40000 : ℚ) < 100000 ∧
      parse_auto_numeric_cell 40000 = excel_serial_to_datetime 40000) :=
  ⟨⟨by norm_num, (c2_auto_serial_magnitude 738000).1 (by norm_num)⟩,
   ⟨by norm_num, (c2_auto_serial_magnitude 40000).2.1 (by norm_num)⟩⟩

/-- C3 counterexample: serials 60 and 61 decode to the same instant, namely
midnight of Mar 1 1900 — Python's proleptic calendar has no Feb 29 1900, so
`epoch + timedelta(days=60)` already lands on Mar 1.  The claim that serial 60
decodes to Feb 29 1900 (a day before serial 61's Mar 1 1900) is false. -/
theorem c3_counterexample :
    excel_serial_to_datetime 60 = excel_serial_to_datetime 61 ∧
    excel_serial_to_datetime 60 = midnightOf 1900 3 1 := by
  have h1 : toordinal 1899 12 31 = 693595 := by decide
  have h2 : toordinal 1900 3 1 = 693655 := by decide
  unfold excel_serial_to_datetime midnightOf
  rw [h1, h2]
  split_ifs <;> norm_num at *

/-- C3 (amended): the Excel decoder subtracts one day from every serial `≥ 61`
before adding it to the Dec 31 1899 epoch; serial 61 decodes to Mar 1 1900, and
serial 60 decodes to Mar 1 1900 as well (Python `datetime` cannot represent
Excel's fictitious Feb 29 1900). -/
theorem c3_excel_serial_decrement (s : ℚ) :
    (61 ≤ s → excel_serial_to_datetime s = midnightOf 1899 12 31 + (s - 1) * 86400) ∧
    (s < 61 → excel_serial_to_datetime s = midnightOf 1899 12 31 + s * 86400) ∧
    excel_serial_to_datetime 61 = midnightOf 1900 3 1 ∧
    excel_serial_to_datetime 60 = midnightOf 1900 3 1 := by
  have h1 : toordinal 1899 12 31 = 693595 := by decide
  have h2 : toordinal 1900 3 1 = 693655 := by decide
  refine ⟨fun h => ?_, fun h => ?_, ?_, ?_⟩
  · unfold excel_serial_to_datetime; rw [if_pos h]
  · unfold excel_serial_to_datetime; rw [if_neg (not_le.mpr h)]
  · unfold excel_serial_to_datetime midnightOf
    rw [h1, h2]
    split_ifs <;> norm_num at *
  · unfold excel_serial_to_datetime midnightOf
    rw [h1, h2]
    split_ifs <;> norm_num at *

/-- C3 witness: both hypothesised cases of `c3_excel_serial_decrement` at
concrete serials. -/
theorem c3_excel_serial_decrement_witness :
    ((61 : ℚ) ≤ 100 ∧
      excel_serial_to_datetime 100 = midnightOf 1899 12 31 + (100 - 1) * 86400) ∧
    ((10 : ℚ) < 61 ∧
      excel_serial_to_datetime 10 = midnightOf 1899 12 31 + 10 * 86400) :=
  ⟨⟨by norm_num, (c3_excel_serial_decrement 100).1 (by norm_num)⟩,
   ⟨by norm_num, (c3_excel_serial_decrement 10).2.1 (by norm_num)⟩⟩

/-- C4: encoding an instant to a MATLAB serial and decoding it back yields an
instant within 1 second of the original (the decoder rounds the fractional day
to whole seconds, the only loss).  The hypothesis `86400 ≤ dt` says the instant
lies at or after Jan 1 of year 1, the domain of Python `datetime`. -/
theorem c4_matlab_serial_roundtrip (dt : ℚ) (h : 86400 ≤ dt) :
    |matlab_serial_to_datetime (datetime_to_matlab_serial dt) - dt| ≤ 1 := by
  have h24 : (0:ℚ) < 86400 := by norm_num
  set o := ⌊dt / 86400⌋ with ho
  have hfl : (o : ℚ) ≤ dt / 86400 := Int.floor_le _
  have hfu : dt / 86400 < o + 1 := Int.lt_floor_add_one _
  have hs0 : 0 ≤ dt - 86400 * o := by
    have := (le_div_iff₀ h24).mp hfl
    linarith
  have hs1 : dt - 86400 * o < 86400 := by
    have := (div_lt_iff₀ h24).mp hfu
    linarith
  have ho1 : 1 ≤ o := by
    rw [ho]
    refine Int.le_floor.mpr ?_
    rw [Int.cast_one, le_div_iff₀ h24]
    linarith
  have hoQ : (1:ℚ) ≤ (o:ℚ) := by exact_mod_cast ho1
  set s := dt - 86400 * o with hsdef
  have hser : datetime_to_matlab_serial dt = s / 86400 + ((o + 366 : ℤ) : ℚ) := by
    unfold datetime_to_matlab_serial
    rw [← ho, hsdef]
    push_cast
    ring
  have hfrac0 : 0 ≤ s / 86400 := div_nonneg hs0 (le_of_lt h24)
  have hfrac1 : s / 86400 < 1 := (div_lt_one h24).mpr hs1
  have hpos : 0 ≤ datetime_to_matlab_serial dt := by
    rw [hser]
    push_cast
    linarith
  have hPyInt : pyInt (datetime_to_matlab_serial dt) = o + 366 := by
    unfold pyInt
    rw [if_pos hpos, hser, Int.floor_add_int,
      Int.floor_eq_zero_iff.mpr (Set.mem_Ico.mpr ⟨hfrac0, hfrac1⟩), zero_add]
  have hkey : matlab_serial_to_datetime (datetime_to_matlab_serial dt)
      = 86400 * (o : ℚ) + (pyRound s : ℚ) := by
    unfold matlab_serial_to_datetime
    rw [hPyInt]
    rw [show (datetime_to_matlab_serial dt - ((o + 366 : ℤ) : ℚ)) * 86400 = s from by
      rw [hser]; push_cast; field_simp; ring]
    rw [show o + 366 - 366 = o from by ring, max_eq_left ho1]
  rw [hkey]
  have hdiff : 86400 * (o:ℚ) + (pyRound s : ℚ) - dt = (pyRound s : ℚ) - s := by
    rw [hsdef]
    ring
  rw [hdiff]
  have := pyRound_close s
  rw [abs_le] at *
  constructor <;> linarith [this.1, this.2]

/-- C4 witness: round-trip within a second at a concrete afternoon instant
(Jan 2 of year 1, 00:00:33⅓). -/
theorem c4_matlab_serial_roundtrip_witness :
    (86400 : ℚ) ≤ 172800 + 100/3 ∧
    |matlab_serial_to_datetime (datetime_to_matlab_serial (172800 + 100/3))
      - (172800 + 100/3)| ≤ 1 :=
  ⟨by norm_num, c4_matlab_serial_roundtrip (172800 + 100/3) (by norm_num)⟩

/-! ## Theorems: row-count interval inference (C9) -/

/-- C9 counterexample: 525601 is a positive row count, the claimed formula value
`round(60*8760/525601)` clamped at 1 is 1, yet the code rejects every row count
above 525600, so the loader does not return 1 there — the claim "never a
failure for a positive row count" is false. -/
theorem c9_counterexample :
    0 < 525601 ∧
    Int.toNat (max (pyRound ((60 * 8760 : ℚ) / 525601)) 1) = 1 ∧
    infer_interval_minutes_from_row_count 525601 ≠ .ok 1 := by
  refine ⟨by norm_num, ?_, ?_⟩
  · have hfl : ⌊(60 * 8760 : ℚ) / 525601⌋ = 0 := by
      rw [Int.floor_eq_zero_iff]
      constructor <;> norm_num
    unfold pyRound
    rw [hfl]
    norm_num
  · unfold infer_interval_minutes_from_row_count ROW_COUNT_TO_INTERVAL_MINUTES
    simp [List.lookup]

/-- C9 (amended): for the four tabulated yearly row counts the inferred native
interval is the table value; for every other positive row count up to 525600 it
is `round(60*8760/n)` minutes clamped below at 1; and every row count above
525600 is rejected with an error rather than inferred. -/
theorem c9_infer_interval (n : ℕ) :
    infer_interval_minutes_from_row_count 8760 = .ok 60 ∧
    infer_interval_minutes_from_row_count 17520 = .ok 30 ∧
    infer_interval_minutes_from_row_count 35040 = .ok 15 ∧
    infer_interval_minutes_from_row_count 105120 = .ok 5 ∧
    (0 < n → n ≤ 525600 → n ∉ [8760, 17520, 35040, 105120] →
      infer_interval_minutes_from_row_count n
        = .ok (Int.toNat (max (pyRound ((60 * 8760 : ℚ) / n)) 1))) ∧
    (525600 < n → ∃ msg, infer_interval_minutes_from_row_count n = .error msg) := by
  refine ⟨rfl, rfl, rfl, rfl, fun h0 h1 hmem => ?_, fun hbig => ?_⟩
  · simp only [List.mem_cons, List.not_mem_nil, or_false, not_or] at hmem
    have b1 : (n == 8760) = false := beq_eq_false_iff_ne.mpr hmem.1
    have b2 : (n == 17520) = false := beq_eq_false_iff_ne.mpr hmem.2.1
    have b3 : (n == 35040) = false := beq_eq_false_iff_ne.mpr hmem.2.2.1
    have b4 : (n == 105120) = false := beq_eq_false_iff_ne.mpr hmem.2.2.2
    unfold infer_interval_minutes_from_row_count ROW_COUNT_TO_INTERVAL_MINUTES
    simp only [List.lookup, b1, b2, b3, b4]
    rw [if_neg (by omega)]
  · have b1 : (n == 8760) = false := beq_eq_false_iff_ne.mpr (by omega)
    have b2 : (n == 17520) = false := beq_eq_false_iff_ne.mpr (by omega)
    have b3 : (n == 35040) = false := beq_eq_false_iff_ne.mpr (by omega)
    have b4 : (n == 105120) = false := beq_eq_false_iff_ne.mpr (by omega)
    refine ⟨"Cannot infer time step from row count", ?_⟩
    unfold infer_interval_minutes_from_row_count ROW_COUNT_TO_INTERVAL_MINUTES
    simp only [List.lookup, b1, b2, b3, b4]
    rw [if_pos (by omega)]

/-- C9 witness: the formula case of `c9_infer_interval` at row count 10000
(`round(52.56) = 53`) and the rejection case at 525601. -/
theorem c9_infer_interval_witness :
    (0 < 10000 ∧ 10000 ≤ 525600 ∧ (10000 : ℕ) ∉ [8760, 17520, 35040, 105120] ∧
      infer_interval_minutes_from_row_count 10000 = .ok 53) ∧
    (525600 < 525601 ∧
      ∃ msg, infer_interval_minutes_from_row_count 525601 = .error msg) := by
  constructor
  · refine ⟨by norm_num, by norm_num, by decide, ?_⟩
    have h := (c9_infer_interval 10000).2.2.2.2.1 (by norm_num) (by norm_num) (by decide)
    rw [h]
    have hcast : (((10000 : ℕ)) : ℚ) = 10000 := by norm_num
    rw [hcast]
    have hfl : ⌊(60 * 8760 : ℚ) / 10000⌋ = 52 := by
      rw [Int.floor_eq_iff]
      constructor <;> norm_num
    have hround : pyRound ((60 * 8760 : ℚ) / 10000) = 53 := by
      unfold pyRound
      rw [hfl]
      norm_num
    rw [hround]
    rfl
  · exact ⟨by norm_num, (c9_infer_interval 525601).2.2.2.2.2 (by norm_num)⟩

/-- C6 counterexample: the axis `[0s, 3600s, 10800s]` is irregular (gaps 1h and
2h), yet the loader still records an interval-in-hours (1, from the first two
timestamps) — the claim that the metadata is absent whenever the axis is not
regular is false. -/
theorem c6_counterexample :
    ¬ axis_regular [0, 3600, 10800] ∧
    first_step_hours [0, 3600, 10800] = some 1 := by
  constructor
  · rintro ⟨g, hg⟩
    simp only [List.chain'_cons, List.chain'_singleton, and_true] at hg
    obtain ⟨h1, h2⟩ := hg
    norm_num at h1 h2
    linarith
  · unfold first_step_hours
    norm_num

/-- C6 (amended): the interval-in-hours metadata is present exactly when the
final axis has at least two timestamps, in which case it equals the spacing of
the first two timestamps; when the axis is regular with constant spacing `g`
that value is `g` hours (so on a regular axis it is the single constant
spacing, but it is *not* absent on an irregular axis). -/
theorem c6_interval_metadata (dts : List ℚ) :
    (first_step_hours dts = none ↔ dts.length < 2) ∧
    (∀ g, dts.Chain' (fun a b => b - a = g) → 2 ≤ dts.length →
      first_step_hours dts = some (g / 3600)) := by
  constructor
  · match dts with
    | [] => simp [first_step_hours]
    | [t0] => simp [first_step_hours]
    | t0 :: t1 :: rest => simp [first_step_hours]
  · intro g hg hlen
    match dts, hlen with
    | t0 :: t1 :: rest, _ =>
      simp only [List.chain'_cons] at hg
      show some ((t1 - t0) / 3600) = some (g / 3600)
      rw [hg.1]

/-- C6 witness: `c6_interval_metadata` applied to the regular axis `[0s, 3600s]`. -/
theorem c6_interval_metadata_witness :
    ([(0 : ℚ), 3600].Chain' (fun a b => b - a = 3600) ∧ 2 ≤ ([(0 : ℚ), 3600]).length) ∧
    first_step_hours [0, 3600] = some (3600 / 3600) := by
  have hchain : ([(0 : ℚ), 3600].Chain' (fun a b => b - a = 3600)) := by
    simp only [List.chain'_cons, List.chain'_singleton, and_true]
    norm_num
  exact ⟨⟨hchain, by norm_num⟩,
    (c6_interval_metadata [0, 3600]).2 3600 hchain (by norm_num)⟩

/-! ## Theorems: column resolution (C7) -/

/-- C7: for every normalized header list and preferred column name, the
resolver returns the preferred name followed by the other unit-pattern headers
in header order when the preferred name is present; exactly the unit-pattern
headers in header order when it is absent but at least one exists; and
otherwise a `MissingColumn` error whose payload enumerates all found headers. -/
theorem c7_resolve_load_columns (fieldnames : List String) (preferred : String) :
    (preferred ∈ fieldnames →
      resolve_load_columns fieldnames preferred =
        .ok (preferred :: fieldnames.filter
          (fun n => unit_in_parentheses n && n != preferred))) ∧
    (preferred ∉ fieldnames → (∃ n ∈ fieldnames, unit_in_parentheses n) →
      resolve_load_columns fieldnames preferred =
        .ok (fieldnames.filter (fun n => unit_in_parentheses n))) ∧
    (preferred ∉ fieldnames → (∀ n ∈ fieldnames, ¬ unit_in_parentheses n) →
      resolve_load_columns fieldnames preferred = .error ⟨preferred, fieldnames⟩) := by
  refine ⟨fun hin => ?_, fun hout hex => ?_, fun hout hnone => ?_⟩
  · unfold resolve_load_columns
    rw [if_pos hin, List.filter_filter]
    exact congrArg Except.ok (congrArg (preferred :: ·)
      (List.filter_congr fun a _ => Bool.and_comm _ _))
  · unfold resolve_load_columns
    rw [if_neg hout]
    have hne : fieldnames.filter (fun n => unit_in_parentheses n) ≠ [] := by
      obtain ⟨n, hn, hu⟩ := hex
      intro hnil
      exact (List.filter_eq_nil_iff.mp hnil n hn) hu
    rw [if_pos hne]
  · unfold resolve_load_columns
    rw [if_neg hout]
    have hnil : fieldnames.filter (fun n => unit_in_parentheses n) = [] :=
      List.filter_eq_nil_iff.mpr fun n hn => hnone n hn
    rw [if_neg (by simp [hnil])]

/-- C7 witness: the spec's fallback example — preferred column absent, one
unit-pattern header — resolves to exactly that header. -/
theorem c7_resolve_load_columns_witness :
    "Electric Demand (kW)" ∉ ["Date", "Campus Demand (kW)"] ∧
    (∃ n ∈ ["Date", "Campus Demand (kW)"], unit_in_parentheses n) ∧
    resolve_load_columns ["Date", "Campus Demand (kW)"] "Electric Demand (kW)"
      = .ok ["Campus Demand (kW)"] := by
  refine ⟨by decide, ⟨"Campus Demand (kW)", by decide, by decide⟩, ?_⟩
  have h := (c7_resolve_load_columns ["Date", "Campus Demand (kW)"]
    "Electric Demand (kW)").2.1 (by decide) ⟨"Campus Demand (kW)", by decide, by decide⟩
  rw [h]
  exact congrArg Except.ok (by decide)

/-! ## Theorems: series keys (C8) -/

/-- C8 counterexample: two distinct headers, both resolvable load columns of the
same file, generate the same storage key (`demand` is canonicalized to `load`),
so the later series overwrites the earlier — the keys are not collision-safe. -/
theorem c8_counterexample :
    "Electric Demand (kW)" ≠ "Electric Load (kW)" ∧
    resolve_load_columns ["Date", "Electric Demand (kW)", "Electric Load (kW)"]
        "Electric Demand (kW)"
      = .ok ["Electric Demand (kW)", "Electric Load (kW)"] ∧
    series_key "Electric Demand (kW)" = series_key "Electric Load (kW)" := by
  refine ⟨by decide, by rfl, by decide⟩

/-- C8 (amended): each resolved column is stored under
`electricity_load__` ++ its normalized slug, and two columns' keys are equal
exactly when their slugs are equal — so distinct resolved columns get distinct
keys only when their normalized slugs differ, and a slug collision (such as
`Electric Demand (kW)` vs `Electric Load (kW)`) makes the later series
overwrite the earlier. -/
theorem c8_series_key_collision (c1 c2 : String) :
    series_key c1 = series_key c2 ↔ normalize_series_key c1 = normalize_series_key c2 := by
  unfold series_key
  constructor
  · intro h
    have hd := congrArg String.data h
    rw [String.data_append, String.data_append] at hd
    exact String.ext (List.append_cancel_left hd)
  · intro h
    rw [h]

/-! ## Support lemmas for the Time Conditioner -/

/-- A map that fixes every element of a list is the identity on it. -/
theorem map_eq_self {α : Type} {l : List α} {f : α → α} (h : ∀ x ∈ l, f x = x) :
    l.map f = l := by
  induction l with
  | nil => rfl
  | cons a rest ih =>
    simp only [List.map_cons]
    rw [h a (List.mem_cons_self a rest), ih fun x hx => h x (List.mem_cons_of_mem _ hx)]

theorem maskNegative_keep {v : ℚ} (hv : 0 ≤ v) : maskNegative (some v) = some v := by
  unfold maskNegative
  simp [hv]

theorem maskNegative_eq_some {o : Option ℚ} {v : ℚ} (h : maskNegative o = some v) :
    o = some v ∧ 0 ≤ v := by
  unfold maskNegative at h
  cases o with
  | none => cases h
  | some u =>
    simp only [Option.some_bind] at h
    split_ifs at h with hu
    · injection h with h
      subst h
      exact ⟨rfl, hu⟩

/-- Every present value of a masked column is nonnegative (membership form). -/
theorem mask_map_nonneg {col : List (Option ℚ)} :
    ∀ o ∈ col.map maskNegative, ∀ v, o = some v → 0 ≤ v := by
  intro o ho v hov
  subst hov
  obtain ⟨u, _, hu⟩ := List.mem_map.mp ho
  exact (maskNegative_eq_some hu).2

/-- Every present value of a masked column is nonnegative (position form). -/
theorem mask_map_getElem_nonneg {col : List (Option ℚ)} {j : ℕ} {v : ℚ}
    (h : (col.map maskNegative)[j]? = some (some v)) : 0 ≤ v := by
  rw [List.getElem?_map] at h
  cases hc : col[j]? with
  | none => rw [hc] at h; cases h
  | some o =>
    rw [hc] at h
    injection h with h
    exact (maskNegative_eq_some h).2

/-- Masking keeps a nonnegative present value in place. -/
theorem mask_map_valid {col : List (Option ℚ)} {i : ℕ} {v : ℚ}
    (h : col[i]? = some (some v)) (hv : 0 ≤ v) :
    (col.map maskNegative)[i]? = some (some v) := by
  rw [List.getElem?_map, h]
  simp [maskNegative_keep hv]

theorem mem_validPairsAux {xs : List (Option ℚ)} {i j : ℕ} {v : ℚ} :
    (j, v) ∈ validPairsAux i xs ↔ ∃ k, j = i + k ∧ xs[k]? = some (some v) := by
  induction xs generalizing i with
  | nil => simp [validPairsAux]
  | cons o rest ih =>
    cases o with
    | none =>
      rw [show validPairsAux i (none :: rest) = validPairsAux (i + 1) rest from rfl, ih]
      constructor
      · rintro ⟨k, rfl, hk⟩
        exact ⟨k + 1, by omega, by simpa using hk⟩
      · rintro ⟨k, rfl, hk⟩
        cases k with
        | zero => simp at hk
        | succ k => exact ⟨k, by omega, by simpa using hk⟩
    | some w =>
      rw [show validPairsAux i (some w :: rest) = (i, w) :: validPairsAux (i + 1) rest from rfl]
      simp only [List.mem_cons, Prod.mk.injEq, ih]
      constructor
      · rintro (⟨rfl, rfl⟩ | ⟨k, rfl, hk⟩)
        · exact ⟨0, by omega, by simp⟩
        · exact ⟨k + 1, by omega, by simpa using hk⟩
      · rintro ⟨k, rfl, hk⟩
        cases k with
        | zero =>
          simp only [List.getElem?_cons_zero] at hk
          injection hk with hk
          injection hk with hk
          exact Or.inl ⟨by omega, hk.symm⟩
        | succ k => exact Or.inr ⟨k, by omega, by simpa using hk⟩

theorem mem_validPairs {xs : List (Option ℚ)} {j : ℕ} {v : ℚ} :
    (j, v) ∈ validPairs xs ↔ xs[j]? = some (some v) := by
  unfold validPairs
  rw [mem_validPairsAux]
  constructor
  · rintro ⟨k, rfl, hk⟩
    simpa using hk
  · intro h
    exact ⟨j, by omega, h⟩

theorem mem_of_getLast?_eq {α : Type} {l : List α} {a : α} (h : l.getLast? = some a) :
    a ∈ l := by
  obtain ⟨hne, heq⟩ := List.mem_getLast?_eq_getLast (show a ∈ l.getLast? by simp [h, Option.mem_def])
  rw [heq]
  exact List.getLast_mem hne

theorem lastValidBefore_spec {xs : List (Option ℚ)} {i : ℕ} {p : ℕ × ℚ}
    (h : lastValidBefore xs i = some p) : xs[p.1]? = some (some p.2) ∧ p.1 < i := by
  have hmem := mem_of_getLast?_eq h
  obtain ⟨hvp, hlt⟩ := List.mem_filter.mp hmem
  obtain ⟨j, v⟩ := p
  exact ⟨mem_validPairs.mp hvp, of_decide_eq_true hlt⟩

theorem firstValidAfter_spec {xs : List (Option ℚ)} {i : ℕ} {p : ℕ × ℚ}
    (h : firstValidAfter xs i = some p) : xs[p.1]? = some (some p.2) ∧ i < p.1 := by
  have hmem := List.mem_of_mem_head? (show p ∈ (((validPairs xs).filter
    (fun q => decide (i < q.1)))).head? by simp [firstValidAfter] at h; simp [h, Option.mem_def])
  obtain ⟨hvp, hlt⟩ := List.mem_filter.mp hmem
  obtain ⟨j, v⟩ := p
  exact ⟨mem_validPairs.mp hvp, of_decide_eq_true hlt⟩

theorem lastValidBefore_isSome {xs : List (Option ℚ)} {i j : ℕ} {v : ℚ}
    (hj : xs[j]? = some (some v)) (hij : j < i) : (lastValidBefore xs i).isSome := by
  apply List.getLast?_isSome.mpr
  apply List.ne_nil_of_mem (a := (j, v))
  exact List.mem_filter.mpr ⟨mem_validPairs.mpr hj, decide_eq_true hij⟩

theorem firstValidAfter_isSome {xs : List (Option ℚ)} {i j : ℕ} {v : ℚ}
    (hj : xs[j]? = some (some v)) (hij : i < j) : (firstValidAfter xs i).isSome := by
  apply List.head?_isSome.mpr
  apply List.ne_nil_of_mem (a := (j, v))
  exact List.mem_filter.mpr ⟨mem_validPairs.mpr hj, decide_eq_true hij⟩

theorem getD_eq_some_iff {xs : List (Option ℚ)} {i : ℕ} {v : ℚ} :
    xs.getD i none = some v ↔ xs[i]? = some (some v) := by
  rw [List.getD_eq_getElem?_getD]
  cases h : xs[i]? with
  | none => simp
  | some o => simp

/-- If a column has any valid cell, interpolation leaves no cell missing. -/
theorem interpAt_isSome {xs : List (Option ℚ)} {j : ℕ} {v : ℚ}
    (hex : xs[j]? = some (some v)) (i : ℕ) : (interpAt xs i).isSome := by
  unfold interpAt
  cases hD : xs.getD i none with
  | some w => simp
  | none =>
    have hne : j ≠ i := by
      intro hji
      subst hji
      rw [List.getD_eq_getElem?_getD, hex] at hD
      cases hD
    rcases Nat.lt_or_ge j i with hlt | hge
    · obtain ⟨p, hp⟩ := Option.isSome_iff_exists.mp (lastValidBefore_isSome hex hlt)
      rw [hp]
      cases hF : firstValidAfter xs i <;> simp
    · have hgt : i < j := lt_of_le_of_ne hge (Ne.symm hne)
      obtain ⟨p, hp⟩ := Option.isSome_iff_exists.mp (firstValidAfter_isSome hex hgt)
      rw [hp]
      cases hL : lastValidBefore xs i <;> simp

/-- If every valid cell of a column is nonnegative, so is every interpolated
cell (the positional linear interpolation stays between its endpoints). -/
theorem interpAt_nonneg {xs : List (Option ℚ)}
    (hnn : ∀ (j : ℕ) (v : ℚ), xs[j]? = some (some v) → 0 ≤ v) {i : ℕ} {w : ℚ}
    (h : interpAt xs i = some w) : 0 ≤ w := by
  unfold interpAt at h
  split at h
  case _ v heq =>
    injection h with h
    subst h
    exact hnn i _ (getD_eq_some_iff.mp heq)
  case _ heq =>
    split at h
    case _ jv kv hL hF =>
      injection h with h
      obtain ⟨hjval, hji⟩ := lastValidBefore_spec hL
      obtain ⟨hkval, hik⟩ := firstValidAfter_spec hF
      have ha : 0 ≤ jv.2 := hnn _ _ hjval
      have hb : 0 ≤ kv.2 := hnn _ _ hkval
      have hjk : jv.1 < kv.1 := lt_trans hji hik
      have hd : (0:ℚ) < (kv.1 : ℚ) - (jv.1 : ℚ) := by
        rw [sub_pos]
        exact_mod_cast hjk
      have hnum0 : (0:ℚ) ≤ (i : ℚ) - (jv.1 : ℚ) := by
        rw [sub_nonneg]
        exact_mod_cast le_of_lt hji
      have hx0 : 0 ≤ ((i:ℚ) - (jv.1:ℚ)) / ((kv.1:ℚ) - (jv.1:ℚ)) :=
        div_nonneg hnum0 (le_of_lt hd)
      have hx1 : ((i:ℚ) - (jv.1:ℚ)) / ((kv.1:ℚ) - (jv.1:ℚ)) ≤ 1 := by
        rw [div_le_one hd]
        have : (i : ℚ) ≤ (kv.1 : ℚ) := by exact_mod_cast le_of_lt hik
        linarith
      rw [← h]
      nlinarith [mul_nonneg (sub_nonneg.mpr hx1) ha, mul_nonneg hx0 hb]
    case _ jv hL hF =>
      injection h with h
      rw [← h]
      exact hnn _ _ (lastValidBefore_spec hL).1
    case _ kv hL hF =>
      injection h with h
      rw [← h]
      exact hnn _ _ (firstValidAfter_spec hF).1
    case _ hL hF => cases h

/-- Interpolation output of a column with a valid cell and nonnegative valid
cells: every cell present and nonnegative. -/
theorem interpolate_clean {xs : List (Option ℚ)}
    (hex : ∃ (j : ℕ) (v : ℚ), xs[j]? = some (some v))
    (hnn : ∀ (j : ℕ) (v : ℚ), xs[j]? = some (some v) → 0 ≤ v) :
    ∀ o ∈ interpolate_linear_both xs, ∃ v, o = some v ∧ 0 ≤ v := by
  intro o ho
  obtain ⟨i, -, rfl⟩ := List.mem_map.mp ho
  obtain ⟨j, v, hj⟩ := hex
  obtain ⟨w, hw⟩ := Option.isSome_iff_exists.mp (interpAt_isSome hj i)
  exact ⟨w, hw, interpAt_nonneg hnn hw⟩

/-- Interpolation does not change a column without missing cells. -/
theorem interpolate_id {xs : List (Option ℚ)} (h : ∀ o ∈ xs, o.isSome) :
    interpolate_linear_both xs = xs := by
  apply List.ext_getElem
  · simp [interpolate_linear_both]
  intro i h1 h2
  simp only [interpolate_linear_both, List.getElem_map, List.getElem_range]
  obtain ⟨v, hv⟩ := Option.isSome_iff_exists.mp (h xs[i] (List.getElem_mem h2))
  have hD : xs.getD i none = some v := by
    rw [List.getD_eq_getElem?_getD, List.getElem?_eq_getElem h2, hv]
    rfl
  unfold interpAt
  rw [hD, hv]

theorem foldr_max_zero {l : List ℚ} (h : ∀ x ∈ l, x = 0) : l.foldr max 0 = 0 := by
  induction l with
  | nil => rfl
  | cons a rest ih =>
    simp only [List.foldr_cons]
    rw [h a (List.mem_cons_self _ _), ih fun x hx => h x (List.mem_cons_of_mem _ hx)]
    exact max_self 0

/-- Timestamps that sit exactly on the target grid pass the regularity test for
any nonnegative tolerance. -/
theorem regular_of_on_grid {dts : List ℚ} {m : ℕ} (hm : 0 < m) {tol : ℚ} (htol : 0 ≤ tol)
    (hgrid : ∀ t ∈ dts, ∃ k : ℤ, t = dts.headD 0 + (k : ℚ) * ((m : ℚ) * 60)) :
    timestamps_are_regular_enough dts m tol = true := by
  unfold timestamps_are_regular_enough
  split_ifs with hlen
  · rfl
  · rw [decide_eq_true_iff]
    have hT : (0:ℚ) < (m:ℚ) * 60 := by
      have : (0:ℚ) < (m:ℚ) := by exact_mod_cast hm
      linarith
    have hz : ∀ x ∈ dts.map (fun t => gridDistance ((m:ℚ) * 60) (t - dts.headD 0)), x = 0 := by
      intro x hx
      obtain ⟨t, ht, rfl⟩ := List.mem_map.mp hx
      obtain ⟨k, hk⟩ := hgrid t ht
      rw [hk]
      unfold gridDistance gridRemainder
      rw [show dts.headD 0 + (k:ℚ) * ((m:ℚ) * 60) - dts.headD 0 = (k:ℚ) * ((m:ℚ) * 60) from by ring]
      rw [mul_div_cancel_right₀ _ (ne_of_gt hT), Int.floor_intCast]
      rw [show (k:ℚ) * ((m:ℚ) * 60) - (m:ℚ) * 60 * (k:ℚ) = 0 from by ring]
      rw [sub_zero]
      exact min_eq_left (le_of_lt hT)
    rw [foldr_max_zero hz]
    exact htol

theorem meanOfList_nonneg {l : List ℚ} (h : ∀ x ∈ l, 0 ≤ x) {w : ℚ}
    (hw : meanOfList l = some w) : 0 ≤ w := by
  unfold meanOfList at hw
  split_ifs at hw
  injection hw with hw
  subst hw
  exact div_nonneg (List.sum_nonneg h) (Nat.cast_nonneg _)

theorem sorted_headD_le {l : List ℚ} (hs : l.Pairwise (· ≤ ·)) {t : ℚ} (ht : t ∈ l) :
    l.headD 0 ≤ t := by
  cases l with
  | nil => cases ht
  | cons a rest =>
    rcases List.mem_cons.mp ht with rfl | hmem
    · exact le_refl _
    · exact (List.pairwise_cons.mp hs).1 t hmem

theorem getLastD_mem {l : List ℚ} (h : l ≠ []) (d : ℚ) : l.getLastD d ∈ l := by
  induction l generalizing d with
  | nil => exact absurd rfl h
  | cons a rest ih =>
    rw [List.getLastD_cons]
    cases hrest : rest with
    | nil =>
      subst hrest
      simp [List.getLastD]
    | cons b r2 =>
      subst hrest
      exact List.mem_cons_of_mem a (ih (by simp) a)

theorem getLastD_irrel {l : List ℚ} (h : l ≠ []) (d d' : ℚ) :
    l.getLastD d = l.getLastD d' := by
  obtain ⟨a, ha⟩ := Option.isSome_iff_exists.mp (List.getLast?_isSome.mpr h)
  rw [List.getLastD_eq_getLast?, List.getLastD_eq_getLast?, ha]
  rfl

theorem sorted_le_getLastD {l : List ℚ} (hs : l.Pairwise (· ≤ ·)) {t : ℚ} (ht : t ∈ l) :
    t ≤ l.getLastD 0 := by
  induction l with
  | nil => cases ht
  | cons a rest ih =>
    rw [List.getLastD_cons]
    obtain ⟨hrel, hrest⟩ := List.pairwise_cons.mp hs
    rcases List.mem_cons.mp ht with rfl | hmem
    · cases hq : rest with
      | nil =>
        subst hq
        simp [List.getLastD]
      | cons b r2 =>
        subst hq
        exact hrel _ (getLastD_mem (by simp) t)
    · have hne : rest ≠ [] := List.ne_nil_of_mem hmem
      rw [getLastD_irrel hne a 0]
      exact ih hrest hmem

theorem binIdx_mono {T origin : ℚ} (hT : 0 < T) {a b : ℚ} (h : a ≤ b) :
    binIdx T origin a ≤ binIdx T origin b := by
  unfold binIdx
  apply Int.floor_le_floor
  gcongr

theorem resampleBins_getElem {dts : List ℚ} {T : ℚ} (hne : ¬dts.isEmpty = true) {j : ℕ}
    (hj : j < (binIdx T (resampleOrigin (dts.headD 0)) (dts.getLastD 0)
        - binIdx T (resampleOrigin (dts.headD 0)) (dts.headD 0) + 1).toNat) :
    (resampleBins dts T)[j]?
      = some (binIdx T (resampleOrigin (dts.headD 0)) (dts.headD 0) + (j : ℤ)) := by
  unfold resampleBins
  rw [if_neg hne, List.getElem?_map, List.getElem?_range hj]
  rfl

/-- A masked column with a valid sample yields a resampled column with a valid
bucket: the bucket holding the sample's timestamp lies inside the produced bin
range and its mean is defined. -/
theorem resample_mean_column_hasValid {dts : List ℚ} {col : List (Option ℚ)} {T : ℚ}
    (hT : 0 < T) (hs : dts.Pairwise (· ≤ ·)) (hlen : col.length = dts.length)
    {i : ℕ} {v : ℚ} (hv : col[i]? = some (some v)) :
    ∃ (j : ℕ) (w : ℚ), (resample_mean_column dts col T)[j]? = some (some w) := by
  have hi : i < col.length := (List.getElem?_eq_some.mp hv).1
  have hidts : i < dts.length := by omega
  obtain ⟨t, ht⟩ : ∃ t, dts[i]? = some t := ⟨dts[i], List.getElem?_eq_getElem hidts⟩
  have htmem : t ∈ dts := List.mem_iff_getElem?.mpr ⟨i, ht⟩
  have hne : dts ≠ [] := List.ne_nil_of_mem htmem
  have hne' : ¬dts.isEmpty = true := by simpa using hne
  have hlb : binIdx T (resampleOrigin (dts.headD 0)) (dts.headD 0)
      ≤ binIdx T (resampleOrigin (dts.headD 0)) t :=
    binIdx_mono hT (sorted_headD_le hs htmem)
  have hub : binIdx T (resampleOrigin (dts.headD 0)) t
      ≤ binIdx T (resampleOrigin (dts.headD 0)) (dts.getLastD 0) :=
    binIdx_mono hT (sorted_le_getLastD hs htmem)
  set origin := resampleOrigin (dts.headD 0) with horigin
  set k0 := binIdx T origin (dts.headD 0) with hk0
  set k1 := binIdx T origin (dts.getLastD 0) with hk1
  set k := binIdx T origin t with hk
  refine ⟨(k - k0).toNat, ?_⟩
  have hjlt : (k - k0).toNat < (k1 - k0 + 1).toNat := by omega
  have hbin : (resampleBins dts T)[(k - k0).toNat]? = some k := by
    rw [resampleBins_getElem hne' hjlt, ← horigin, ← hk0]
    congr 1
    omega
  -- the bucket at bin k contains the sample value v
  have hzip : (dts.zip col)[i]? = some (t, some v) := by
    rw [List.getElem?_zip_eq_some]
    exact ⟨ht, hv⟩
  have hmemzip : (t, some v) ∈ dts.zip col := List.mem_iff_getElem?.mpr ⟨i, hzip⟩
  have hmemfm : (t, v) ∈ (dts.zip col).filterMap
      (fun p => p.2.map (fun w => (p.1, w))) :=
    List.mem_filterMap.mpr ⟨(t, some v), hmemzip, rfl⟩
  have hmemfil : (t, v) ∈ ((dts.zip col).filterMap
      (fun p => p.2.map (fun w => (p.1, w)))).filter
        (fun p => binIdx T origin p.1 == k) :=
    List.mem_filter.mpr ⟨hmemfm, by simp [hk]⟩
  have hvin : v ∈ (((dts.zip col).filterMap
      (fun p => p.2.map (fun w => (p.1, w)))).filter
        (fun p => binIdx T origin p.1 == k)).map Prod.snd :=
    List.mem_map.mpr ⟨(t, v), hmemfil, rfl⟩
  have hlst : ¬((((dts.zip col).filterMap
      (fun p => p.2.map (fun w => (p.1, w)))).filter
        (fun p => binIdx T origin p.1 == k)).map Prod.snd).isEmpty = true := by
    simp only [List.isEmpty_iff]
    exact List.ne_nil_of_mem hvin
  refine ⟨((((dts.zip col).filterMap (fun p => p.2.map (fun w => (p.1, w)))).filter
      (fun p => binIdx T origin p.1 == k)).map Prod.snd).sum /
    (((((dts.zip col).filterMap (fun p => p.2.map (fun w => (p.1, w)))).filter
      (fun p => binIdx T origin p.1 == k)).map Prod.snd).length : ℚ), ?_⟩
  unfold resample_mean_column
  rw [List.getElem?_map, hbin, Option.map_some', ← horigin]
  congr 1
  unfold meanOfList
  rw [if_neg hlst]

/-- Every valid cell of a resampled column is a mean of present values of the
source column, hence nonnegative if those are. -/
theorem resample_mean_column_nonneg {dts : List ℚ} {col : List (Option ℚ)} {T : ℚ}
    (hnn : ∀ o ∈ col, ∀ v, o = some v → 0 ≤ v)
    {j : ℕ} {w : ℚ} (h : (resample_mean_column dts col T)[j]? = some (some w)) : 0 ≤ w := by
  unfold resample_mean_column at h
  rw [List.getElem?_map] at h
  cases hb : (resampleBins dts T)[j]? with
  | none => rw [hb] at h; cases h
  | some k =>
    rw [hb] at h
    simp only [Option.map_some', Option.some.injEq] at h
    apply meanOfList_nonneg ?_ h
    intro x hx
    obtain ⟨p, hp, rfl⟩ := List.mem_map.mp hx
    have hpf := (List.mem_filter.mp hp).1
    obtain ⟨q, hq, hqe⟩ := List.mem_filterMap.mp hpf
    cases ho : q.2 with
    | none => rw [ho] at hqe; cases hqe
    | some u =>
      rw [ho] at hqe
      injection hqe with hqe
      have hmem : q.2 ∈ col := (List.of_mem_zip hq).2
      rw [ho] at hmem
      have hu := hnn _ hmem u rfl
      rw [← hqe]
      exact hu

/-! ## Theorems: Time Conditioner claims (C1, C5) -/

/-- C1: with a configured target interval, `resample_only_if_irregular = true`,
a nonnegative tolerance, every timestamp exactly on the target grid (anchored at
the first timestamp) and complete value columns (no missing cells and, when
negative-masking is on, no negative values), conditioning returns timestamps
and all value columns unchanged, and conditioning twice equals conditioning
once. -/
theorem c1_condition_regular_noop (cfg : CondCfg) (dts : List ℚ)
    (series : List (List (Option ℚ))) (m : ℕ)
    (htarget : cfg.target_interval_minutes = some m) (hm : 0 < m)
    (hflag : cfg.resample_only_if_irregular = true)
    (htol : 0 ≤ cfg.resample_tolerance_seconds)
    (hgrid : ∀ t ∈ dts, ∃ k : ℤ, t = dts.headD 0 + (k : ℚ) * ((m : ℚ) * 60))
    (hcomplete : ∀ col ∈ series, ∀ o ∈ col, ∃ v, o = some v ∧
      (cfg.treat_negative_as_missing = true → 0 ≤ v)) :
    condition_time_series cfg dts series = (dts, series) ∧
    condition_time_series cfg (condition_time_series cfg dts series).1
      (condition_time_series cfg dts series).2 = condition_time_series cfg dts series := by
  have hmain : condition_time_series cfg dts series = (dts, series) := by
    by_cases hemp : dts.isEmpty
    · unfold condition_time_series
      rw [if_pos hemp]
    · have hregular : timestamps_are_regular_enough dts m cfg.resample_tolerance_seconds
          = true := regular_of_on_grid hm htol hgrid
      have hmaskedEq : (if cfg.treat_negative_as_missing then
          series.map (fun col => col.map maskNegative) else series) = series := by
        split_ifs with hneg
        · apply map_eq_self
          intro col hcol
          apply map_eq_self
          intro o ho
          obtain ⟨v, rfl, hnn⟩ := hcomplete col hcol o ho
          exact maskNegative_keep (hnn hneg)
        · rfl
      have hinterp : series.map interpolate_linear_both = series := by
        apply map_eq_self
        intro col hcol
        apply interpolate_id
        intro o ho
        obtain ⟨v, rfl, -⟩ := hcomplete col hcol o ho
        rfl
      unfold condition_time_series
      rw [if_neg hemp, htarget]
      dsimp only
      rw [hflag, hregular]
      rw [show (true && true) = true from rfl, if_pos rfl]
      rw [hmaskedEq, hinterp]
  refine ⟨hmain, ?_⟩
  rw [hmain]
  exact hmain

/-- C1 witness: a complete, exactly hourly two-point frame with target 60 min
is returned unchanged. -/
theorem c1_condition_regular_noop_witness :
    condition_time_series ⟨true, some 60, true, 60⟩ [0, 3600] [[some 1, some 2]]
      = ([0, 3600], [[some 1, some 2]]) := by
  have h := c1_condition_regular_noop ⟨true, some 60, true, 60⟩ [0, 3600]
    [[some 1, some 2]] 60 rfl (by norm_num) rfl (by norm_num)
    ?_ ?_
  · exact h.1
  · intro t ht
    rcases List.mem_cons.mp ht with rfl | ht2
    · exact ⟨0, by norm_num⟩
    · rcases List.mem_cons.mp ht2 with rfl | ht3
      · exact ⟨1, by norm_num⟩
      · cases ht3
  · intro col hcol o ho
    rcases List.mem_cons.mp hcol with rfl | hcol2
    · rcases List.mem_cons.mp ho with rfl | ho2
      · exact ⟨1, rfl, fun _ => by norm_num⟩
      · rcases List.mem_cons.mp ho2 with rfl | ho3
        · exact ⟨2, rfl, fun _ => by norm_num⟩
        · cases ho3
    · cases hcol2

/-- C5 counterexample: with negative masking enabled, a one-row frame whose
only value is negative is masked to missing and interpolation has nothing to
fill it from, so the output still contains a missing cell — the claim cannot
hold for a column whose input values are all missing after masking. -/
theorem c5_counterexample :
    (condition_time_series ⟨true, none, true, 60⟩ [0] [[some (-5)]]).2 = [[none]] := by
  rfl

/-- C5 (amended): with negative masking enabled, sorted timestamps, a positive
target interval when one is configured, and value columns of the right length
each containing at least one nonnegative present value, every value column
produced by the Time Conditioner is free of missing markers and of negative
values (for whatever gap pattern the rest of the column has).  Columns with no
valid input sample (e.g. all-missing or all-negative) are excluded: they come
out all-missing. -/
theorem c5_conditioned_columns_clean (cfg : CondCfg) (dts : List ℚ)
    (series : List (List (Option ℚ)))
    (hmask : cfg.treat_negative_as_missing = true)
    (hsorted : dts.Pairwise (· ≤ ·))
    (hm : ∀ m, cfg.target_interval_minutes = some m → 0 < m)
    (hlen : ∀ col ∈ series, col.length = dts.length)
    (hvalid : ∀ col ∈ series, ∃ (i : ℕ) (v : ℚ), col[i]? = some (some v) ∧ 0 ≤ v) :
    ∀ colOut ∈ (condition_time_series cfg dts series).2,
      ∀ o ∈ colOut, ∃ v, o = some v ∧ 0 ≤ v := by
  by_cases hemp : dts.isEmpty
  · have hcond : condition_time_series cfg dts series = (dts, series) := by
      unfold condition_time_series
      rw [if_pos hemp]
    rw [hcond]
    intro colOut hcolOut o ho
    exfalso
    obtain ⟨i, v, hv, -⟩ := hvalid colOut hcolOut
    have hi := (List.getElem?_eq_some.mp hv).1
    have hlen0 := hlen colOut hcolOut
    rw [List.isEmpty_iff] at hemp
    subst hemp
    simp only [List.length_nil] at hlen0
    omega
  · cases htarget : cfg.target_interval_minutes with
    | none =>
      have hcond : condition_time_series cfg dts series
          = (dts, (if cfg.treat_negative_as_missing then
              series.map (fun col => col.map maskNegative) else series).map
            interpolate_linear_both) := by
        unfold condition_time_series
        rw [if_neg hemp, htarget]
      rw [hcond, hmask]
      intro colOut hcolOut o ho
      simp only [if_true, List.map_map, List.mem_map, Function.comp] at hcolOut
      obtain ⟨col, hcol, rfl⟩ := hcolOut
      obtain ⟨i, v, hv, hvnn⟩ := hvalid col hcol
      exact interpolate_clean ⟨i, v, mask_map_valid hv hvnn⟩
        (fun j w hw => mask_map_getElem_nonneg hw) o ho
    | some m =>
      have hm' : 0 < m := hm m htarget
      by_cases hreg : (cfg.resample_only_if_irregular &&
          timestamps_are_regular_enough dts m cfg.resample_tolerance_seconds) = true
      · have hcond : condition_time_series cfg dts series
            = (dts, (if cfg.treat_negative_as_missing then
                series.map (fun col => col.map maskNegative) else series).map
              interpolate_linear_both) := by
          unfold condition_time_series
          rw [if_neg hemp, htarget]
          dsimp only
          rw [if_pos hreg]
        rw [hcond, hmask]
        intro colOut hcolOut o ho
        simp only [if_true, List.map_map, List.mem_map, Function.comp] at hcolOut
        obtain ⟨col, hcol, rfl⟩ := hcolOut
        obtain ⟨i, v, hv, hvnn⟩ := hvalid col hcol
        exact interpolate_clean ⟨i, v, mask_map_valid hv hvnn⟩
          (fun j w hw => mask_map_getElem_nonneg hw) o ho
      · have hcond : condition_time_series cfg dts series
            = (resample_index dts (resample_bin_seconds m),
               (if cfg.treat_negative_as_missing then
                  series.map (fun col => col.map maskNegative) else series).map
                (fun col => interpolate_linear_both
                  (resample_mean_column dts col (resample_bin_seconds m)))) := by
          unfold condition_time_series
          rw [if_neg hemp, htarget]
          dsimp only
          rw [if_neg hreg]
        rw [hcond, hmask]
        intro colOut hcolOut o ho
        simp only [if_true, List.map_map, List.mem_map, Function.comp] at hcolOut
        obtain ⟨col, hcol, rfl⟩ := hcolOut
        obtain ⟨i, v, hv, hvnn⟩ := hvalid col hcol
        have hT : 0 < resample_bin_seconds m := by
          unfold resample_bin_seconds
          split_ifs
          · have : (0:ℚ) < (m:ℚ) := by exact_mod_cast hm'
            linarith
          · norm_num
        have hlenM : (col.map maskNegative).length = dts.length := by
          simpa using hlen col hcol
        obtain ⟨j, w, hjw⟩ := resample_mean_column_hasValid hT hsorted hlenM
          (mask_map_valid hv hvnn)
        exact interpolate_clean ⟨j, w, hjw⟩
          (fun j' w' hw' => resample_mean_column_nonneg mask_map_nonneg hw') o ho

/-- C5 witness: a sorted two-point half-hourly frame with a gap, conditioned to
a 60-minute grid (resampling fires), comes out with every cell present and
nonnegative. -/
theorem c5_conditioned_columns_clean_witness :
    ((0:ℚ) ≤ 2 ∧ ([(0:ℚ), 1800]).Pairwise (· ≤ ·) ∧
      ([[some (2:ℚ), none]] : List (List (Option ℚ))).length = 1) ∧
    (∀ colOut ∈ (condition_time_series ⟨true, some 60, true, 60⟩ [0, 1800]
        [[some 2, none]]).2, ∀ o ∈ colOut, ∃ v, o = some v ∧ 0 ≤ v) := by
  have hpair : ([(0:ℚ), 1800]).Pairwise (· ≤ ·) := by
    refine List.Pairwise.cons ?_ (List.Pairwise.cons ?_ List.Pairwise.nil)
    · intro b hb
      rcases List.mem_cons.mp hb with rfl | hb2
      · norm_num
      · cases hb2
    · intro b hb
      cases hb
  constructor
  · exact ⟨by norm_num, hpair, rfl⟩
  · apply c5_conditioned_columns_clean ⟨true, some 60, true, 60⟩ [0, 1800]
      [[some 2, none]] rfl hpair
    · intro m' hm'
      injection hm' with hm'
      omega
    · intro col hcol
      rcases List.mem_cons.mp hcol with rfl | h2
      · rfl
      · cases h2
    · intro col hcol
      rcases List.mem_cons.mp hcol with rfl | h2
      · exact ⟨0, 2, rfl, by norm_num⟩
      · cases h2

/-- C10: a container whose time axis holds a single timestamp records no
interval-in-hours (`time_step_hours` is `None`), and the aligner's conversion
step then multiplies by the default 1.0, storing the cleaned aligned capacity
factors unchanged rather than failing. -/
theorem c10_missing_time_step_defaults_to_one (t : ℚ) (aligned : List ℚ) :
    first_step_hours [t] = none ∧
    convert_cf_to_energy (first_step_hours [t]) aligned = aligned := by
  refine ⟨rfl, ?_⟩
  unfold convert_cf_to_energy first_step_hours
  simp only [Option.getD_none, mul_one]
  exact List.map_id aligned

end DEROpt
